import Mathlib

/-!
Verification development for the displacement-map OpenGL demo (`cg-demo`).

The repository's pure logic lives in three places, all embedded here:
  * `src/main.rs`      — the tessellated quad-mesh generator `generate_vertices`
                         and the sample-density state transitions
                         (`increase_samples` / `decrease_samples`);
  * `src/glhelper/camera.rs` — the fly camera (position, yaw/pitch, derived
                         front/right/up basis);
  * `src/glhelper/utils.rs`  — the look-at and projection matrix builders
                         (and `src/camera.rs`, a legacy near-duplicate module
                         that is present in the source tree but not compiled
                         into the binary).

Modelling conventions:
  * The mesh generator only ever manipulates dyadic rationals (the domain
    bounds are ±1.0 and the tessellation factors are powers of two), so every
    `f32` operation it performs is exact; it is embedded over `ℚ`.
  * The camera and the matrix builders use trigonometry and square roots, so
    they are embedded over `ℝ` (real-valued semantics of the float code).
  * `cgmath` vectors/matrices become `Vec2`/`Vec3`/`Mat4` structures with the
    same field layout (`Mat4` fields are column-major: `xy` is column `x`,
    row `y`, exactly the `result.x.y` of the source).
-/

/-- Two-component vector, mirroring `cgmath::Vector2`. -/
structure Vec2 (α : Type) where
  x : α
  y : α
deriving DecidableEq, Inhabited

/-- Three-component vector, mirroring `cgmath::Vector3`. -/
structure Vec3 (α : Type) where
  x : α
  y : α
  z : α
deriving DecidableEq, Inhabited

/-- Componentwise subtraction (`cgmath`'s `Sub` for `Vector2`). -/
def Vec2.sub [Sub α] (a b : Vec2 α) : Vec2 α :=
  ⟨a.x - b.x, a.y - b.y⟩

/-- Componentwise addition (`cgmath`'s `Add` for `Vector3`). -/
def Vec3.add [Add α] (a b : Vec3 α) : Vec3 α :=
  ⟨a.x + b.x, a.y + b.y, a.z + b.z⟩

/-- Componentwise subtraction (`cgmath`'s `Sub` for `Vector3`). -/
def Vec3.sub [Sub α] (a b : Vec3 α) : Vec3 α :=
  ⟨a.x - b.x, a.y - b.y, a.z - b.z⟩

/-- Scaling a vector by a scalar (`cgmath`'s `v * c`). -/
def Vec3.smul [Mul α] (a : Vec3 α) (c : α) : Vec3 α :=
  ⟨a.x * c, a.y * c, a.z * c⟩

/-- Dot product (`cgmath::InnerSpace::dot`). -/
def Vec3.dot [Mul α] [Add α] (a b : Vec3 α) : α :=
  a.x * b.x + a.y * b.y + a.z * b.z

/-- Cross product (`cgmath::Vector3::cross`). -/
def Vec3.cross [Mul α] [Sub α] (a b : Vec3 α) : Vec3 α :=
  ⟨a.y * b.z - a.z * b.y, a.z * b.x - a.x * b.z, a.x * b.y - a.y * b.x⟩

/-- Mirrors `cgmath::InnerSpace::normalize`: `v * (1 / magnitude v)` with
`magnitude v = sqrt (v ⬝ v)`. -/
noncomputable def Vec3.normalize (v : Vec3 ℝ) : Vec3 ℝ :=
  v.smul (1 / Real.sqrt (v.dot v))

/-- Column-major 4×4 matrix mirroring `cgmath::Matrix4`: field `xy` is the
entry `m.x.y` of the source (column `x`, row `y`). -/
structure Mat4 (α : Type) where
  xx : α
  xy : α
  xz : α
  xw : α
  yx : α
  yy : α
  yz : α
  yw : α
  zx : α
  zy : α
  zz : α
  zw : α
  wx : α
  wy : α
  wz : α
  ww : α
deriving DecidableEq

/-- Mirrors `cgmath::Zero::zero()` for `Matrix4`. -/
instance [Zero α] : Zero (Mat4 α) :=
  ⟨⟨0, 0, 0, 0, 0, 0, 0, 0, 0, 0, 0, 0, 0, 0, 0, 0⟩⟩

/-- Mirrors `cgmath::One::one()` for `Matrix4` (the identity matrix). -/
instance [Zero α] [One α] : One (Mat4 α) :=
  ⟨⟨1, 0, 0, 0, 0, 1, 0, 0, 0, 0, 1, 0, 0, 0, 0, 1⟩⟩

/-! ## Mesh generator (`src/main.rs`)

Constants from `main.rs`. The `SAMPLE_STEPS_X`/`SAMPLE_STEPS_Y` tables hold
the `f32` values `[2.0, 4.0, 16.0, 64.0, 256.0, 1024.0]`; all entries are
exact small integers (the `as i32` cast in the loop bounds recovers exactly
these values), so the tables are embedded as natural numbers and coerced
to `ℚ` where the source uses them as floats. -/

def MIN_X : ℚ := -1
def MAX_X : ℚ := 1
def MIN_Y : ℚ := -1
def MAX_Y : ℚ := 1

def SAMPLE_STEPS_X : Fin 6 → ℕ := ![2, 4, 16, 64, 256, 1024]
def SAMPLE_STEPS_Y : Fin 6 → ℕ := ![2, 4, 16, 64, 256, 1024]
def SAMPLE_START_IDX : ℕ := 0

/-- One vertex of the generated VBO.  The source flattens each vertex to
14 consecutive `f32`s (position 3, normal 3, tex-coords 2, tangent 3,
bitangent 3, see the VAO layout in `configure_vao`); the structure keeps the
same data grouped. -/
structure Vertex where
  pos : Vec3 ℚ
  normal : Vec3 ℚ
  uv : Vec2 ℚ
  tangent : Vec3 ℚ
  bitangent : Vec3 ℚ
deriving DecidableEq, Inhabited

/-- Body of the double loop of `generate_vertices` for one cell
`(step_x, step_y)`: the four corner positions, their UVs, the two
triangles' tangent/bitangent from the UV gradients, and the six emitted
vertices `p1 p2 p3 / p1 p3 p4` in source order. -/
def cellVertices (diff_x diff_y : ℚ) (step_x step_y : ℕ) : List Vertex :=
  let full_diff_x : ℚ := MAX_X - MIN_X
  let full_diff_y : ℚ := MAX_Y - MIN_Y
  let normal : Vec3 ℚ := ⟨0, 0, 1⟩
  -- Step 1: Positions
  let p1 : Vec3 ℚ := ⟨MIN_X + (step_x : ℚ) * diff_x, MIN_Y + (step_y : ℚ) * diff_y, 0⟩
  let p2 : Vec3 ℚ := ⟨MIN_X + (step_x : ℚ) * diff_x, MIN_Y + (step_y : ℚ) * diff_y + diff_y, 0⟩
  let p3 : Vec3 ℚ := ⟨MIN_X + (step_x : ℚ) * diff_x + diff_x, MIN_Y + (step_y : ℚ) * diff_y + diff_y, 0⟩
  let p4 : Vec3 ℚ := ⟨MIN_X + (step_x : ℚ) * diff_x + diff_x, MIN_Y + (step_y : ℚ) * diff_y, 0⟩
  -- Step 2: Texture coordinates
  let uv1 : Vec2 ℚ := ⟨(p1.x - MIN_X) / full_diff_x, (p1.y - MIN_Y) / full_diff_y⟩
  let uv2 : Vec2 ℚ := ⟨(p2.x - MIN_X) / full_diff_x, (p2.y - MIN_Y) / full_diff_y⟩
  let uv3 : Vec2 ℚ := ⟨(p3.x - MIN_X) / full_diff_x, (p3.y - MIN_Y) / full_diff_y⟩
  let uv4 : Vec2 ℚ := ⟨(p4.x - MIN_X) / full_diff_x, (p4.y - MIN_Y) / full_diff_y⟩
  -- Step 3: tangent and bitangent, triangle 1
  let edge1_t1 := p2.sub p1
  let edge2_t1 := p3.sub p1
  let delta_uv1_t1 := uv2.sub uv1
  let delta_uv2_t1 := uv3.sub uv1
  let f_t1 : ℚ := 1 / (delta_uv1_t1.x * delta_uv2_t1.y - delta_uv2_t1.x * delta_uv1_t1.y)
  let tangent1 : Vec3 ℚ := ⟨
    f_t1 * (delta_uv2_t1.y * edge1_t1.x - delta_uv1_t1.y * edge2_t1.x),
    f_t1 * (delta_uv2_t1.y * edge1_t1.y - delta_uv1_t1.y * edge2_t1.y),
    f_t1 * (delta_uv2_t1.y * edge1_t1.z - delta_uv1_t1.y * edge2_t1.z)⟩
  let bitangent1 : Vec3 ℚ := ⟨
    f_t1 * (-1 * delta_uv2_t1.y * edge1_t1.x + delta_uv1_t1.y * edge2_t1.x),
    f_t1 * (-1 * delta_uv2_t1.y * edge1_t1.y + delta_uv1_t1.y * edge2_t1.y),
    f_t1 * (-1 * delta_uv2_t1.y * edge1_t1.z + delta_uv1_t1.y * edge2_t1.z)⟩
  -- triangle 2
  let edge1_t2 := p3.sub p1
  let edge2_t2 := p4.sub p1
  let delta_uv1_t2 := uv3.sub uv1
  let delta_uv2_t2 := uv4.sub uv1
  let f_t2 : ℚ := 1 / (delta_uv1_t2.x * delta_uv2_t2.y - delta_uv2_t2.x * delta_uv1_t2.y)
  let tangent2 : Vec3 ℚ := ⟨
    f_t2 * (delta_uv2_t2.y * edge1_t2.x - delta_uv1_t2.y * edge2_t2.x),
    f_t2 * (delta_uv2_t2.y * edge1_t2.y - delta_uv1_t2.y * edge2_t2.y),
    f_t2 * (delta_uv2_t2.y * edge1_t2.z - delta_uv1_t2.y * edge2_t2.z)⟩
  let bitangent2 : Vec3 ℚ := ⟨
    f_t2 * (-1 * delta_uv2_t2.y * edge1_t2.x + delta_uv1_t2.y * edge2_t2.x),
    f_t2 * (-1 * delta_uv2_t2.y * edge1_t2.y + delta_uv1_t2.y * edge2_t2.y),
    f_t2 * (-1 * delta_uv2_t2.y * edge1_t2.z + delta_uv1_t2.y * edge2_t2.z)⟩
  -- Step 4: the six emitted vertices
  [⟨p1, normal, uv1, tangent1, bitangent1⟩,
   ⟨p2, normal, uv2, tangent1, bitangent1⟩,
   ⟨p3, normal, uv3, tangent1, bitangent1⟩,
   ⟨p1, normal, uv1, tangent2, bitangent2⟩,
   ⟨p3, normal, uv3, tangent2, bitangent2⟩,
   ⟨p4, normal, uv4, tangent2, bitangent2⟩]

/-- Embeds `generate_vertices` of `main.rs`: clears the buffer, then for every cell
of the `stepsX × stepsY` grid appends the six vertices of `cellVertices`
and adds 6 to `point_count`.  Returns the final buffer paired with the
returned `point_count`. -/
def generate_vertices (samples_idx : Fin 6) : List Vertex × ℕ :=
  let diff_x : ℚ := (MAX_X - MIN_X) / (SAMPLE_STEPS_X samples_idx : ℚ)
  let diff_y : ℚ := (MAX_Y - MIN_Y) / (SAMPLE_STEPS_Y samples_idx : ℚ)
  (List.range (SAMPLE_STEPS_X samples_idx)).foldl
    (fun acc step_x =>
      (List.range (SAMPLE_STEPS_Y samples_idx)).foldl
        (fun acc2 step_y =>
          (acc2.1 ++ cellVertices diff_x diff_y step_x step_y, acc2.2 + 6))
        acc)
    ([], 0)

/-! ### Sample-density state transitions (`AppState` in `main.rs`) -/

/-- Rust's `usize::clamp(lo, hi)` (for `lo ≤ hi`). -/
def natClamp (x lo hi : ℕ) : ℕ :=
  min (max x lo) hi

/-- Embeds `AppState::increase_samples`: `samples_idx = (samples_idx + 1).clamp(0, SAMPLE_STEPS_X.len() - 1)`. -/
def increase_samples (samples_idx : ℕ) : ℕ :=
  natClamp (samples_idx + 1) 0 (6 - 1)

/-- Embeds `AppState::decrease_samples`: returns early (state unchanged) when the
index is `0`, otherwise `samples_idx = (samples_idx - 1).clamp(0, SAMPLE_STEPS_X.len() - 1)`. -/
def decrease_samples (samples_idx : ℕ) : ℕ :=
  if samples_idx = 0 then samples_idx
  else natClamp (samples_idx - 1) 0 (6 - 1)

/-- A user command that mutates the sample-density index. -/
inductive SampleOp where
  | inc : SampleOp
  | dec : SampleOp
deriving DecidableEq

/-- Apply one density command to the index. -/
def applySampleOp (samples_idx : ℕ) : SampleOp → ℕ
  | SampleOp.inc => increase_samples samples_idx
  | SampleOp.dec => decrease_samples samples_idx

/-! ## Helper lemmas about the generator's accumulating fold -/

/-- A fold that appends a block and bumps the counter by `k` per index equals
the flat-mapped blocks with counter `k * m`. -/
theorem foldl_append_count (g : ℕ → List Vertex) (k m : ℕ) (acc : List Vertex × ℕ) :
    (List.range m).foldl (fun a y => (a.1 ++ g y, a.2 + k)) acc
      = (acc.1 ++ (List.range m).flatMap g, acc.2 + k * m) := by
  induction m with
  | zero => simp
  | succ n ih =>
    rw [List.range_succ, List.foldl_append, ih]
    simp [List.range_succ, Nat.mul_succ, List.append_assoc, Nat.add_assoc]

/-- The nested fold of `generate_vertices` as a double flat-map plus count. -/
theorem foldl_append_count_two (g : ℕ → ℕ → List Vertex) (m n : ℕ) :
    (List.range m).foldl
      (fun acc x =>
        (List.range n).foldl (fun a2 y => (a2.1 ++ g x y, a2.2 + 6)) acc)
      ([], 0)
    = ((List.range m).flatMap (fun x => (List.range n).flatMap (g x)), 6 * n * m) := by
  have hb : (fun (acc : List Vertex × ℕ) x =>
        (List.range n).foldl (fun a2 y => (a2.1 ++ g x y, a2.2 + 6)) acc)
      = fun acc x => (acc.1 ++ (List.range n).flatMap (g x), acc.2 + 6 * n) := by
    funext acc x
    exact foldl_append_count (g x) 6 n acc
  rw [hb]
  simpa using foldl_append_count (fun x => (List.range n).flatMap (g x)) (6 * n) m ([], 0)

/-- `generate_vertices` in closed form: a flat-map over the grid cells, and
the point count `6 * stepsY * stepsX`. -/
theorem generate_vertices_eq (i : Fin 6) :
    generate_vertices i =
      ((List.range (SAMPLE_STEPS_X i)).flatMap fun step_x =>
        (List.range (SAMPLE_STEPS_Y i)).flatMap fun step_y =>
          cellVertices ((MAX_X - MIN_X) / (SAMPLE_STEPS_X i : ℚ))
            ((MAX_Y - MIN_Y) / (SAMPLE_STEPS_Y i : ℚ)) step_x step_y,
       6 * SAMPLE_STEPS_Y i * SAMPLE_STEPS_X i) := by
  unfold generate_vertices
  exact foldl_append_count_two _ _ _

/-- Each cell emits exactly six vertices. -/
theorem cellVertices_length (dx dy : ℚ) (x y : ℕ) :
    (cellVertices dx dy x y).length = 6 := rfl

/-- Length of a flat-map whose blocks all have length `c`. -/
theorem flatMap_length_const {α : Type} (f : ℕ → List α) (c : ℕ)
    (h : ∀ x, (f x).length = c) (m : ℕ) :
    ((List.range m).flatMap f).length = m * c := by
  induction m with
  | zero => simp
  | succ n ih =>
    rw [List.range_succ]
    simp [ih, h, Nat.succ_mul]

/-- Membership in the generated vertex list comes from some grid cell. -/
theorem mem_generate_vertices {i : Fin 6} {v : Vertex}
    (hv : v ∈ (generate_vertices i).1) :
    ∃ x, x < SAMPLE_STEPS_X i ∧ ∃ y, y < SAMPLE_STEPS_Y i ∧
      v ∈ cellVertices ((MAX_X - MIN_X) / (SAMPLE_STEPS_X i : ℚ))
            ((MAX_Y - MIN_Y) / (SAMPLE_STEPS_Y i : ℚ)) x y := by
  rw [generate_vertices_eq] at hv
  simp only [List.mem_flatMap, List.mem_range] at hv
  obtain ⟨x, hx, y, hy, hmem⟩ := hv
  exact ⟨x, hx, y, hy, hmem⟩

/-- The generated buffer holds `stepsX * stepsY * 6` vertices. -/
theorem generate_vertices_length (i : Fin 6) :
    (generate_vertices i).1.length = SAMPLE_STEPS_X i * SAMPLE_STEPS_Y i * 6 := by
  rw [generate_vertices_eq]
  have hinner : ∀ x : ℕ,
      ((List.range (SAMPLE_STEPS_Y i)).flatMap fun step_y =>
        cellVertices ((MAX_X - MIN_X) / (SAMPLE_STEPS_X i : ℚ))
          ((MAX_Y - MIN_Y) / (SAMPLE_STEPS_Y i : ℚ)) x step_y).length
        = SAMPLE_STEPS_Y i * 6 :=
    fun x => flatMap_length_const _ 6 (fun y => cellVertices_length _ _ _ _) _
  have := flatMap_length_const
    (fun step_x => (List.range (SAMPLE_STEPS_Y i)).flatMap fun step_y =>
      cellVertices ((MAX_X - MIN_X) / (SAMPLE_STEPS_X i : ℚ))
        ((MAX_Y - MIN_Y) / (SAMPLE_STEPS_Y i : ℚ)) step_x step_y)
    (SAMPLE_STEPS_Y i * 6) hinner (SAMPLE_STEPS_X i)
  simpa [Nat.mul_assoc] using this

/-- The returned `point_count` equals `stepsX * stepsY * 6`. -/
theorem generate_vertices_count (i : Fin 6) :
    (generate_vertices i).2 = SAMPLE_STEPS_X i * SAMPLE_STEPS_Y i * 6 := by
  rw [generate_vertices_eq]
  ring

/-- The density-0 buffer is nonempty (it has 24 vertices). -/
theorem generate_vertices_zero_ne_nil : (generate_vertices 0).1 ≠ [] := by
  have h := generate_vertices_length 0
  intro hnil
  rw [hnil, show SAMPLE_STEPS_X 0 = 2 from rfl, show SAMPLE_STEPS_Y 0 = 2 from rfl] at h
  simp at h

/-- The `headI` of a nonempty list is one of its elements. -/
theorem headI_mem_of_ne_nil {α : Type} [Inhabited α] {l : List α} (h : l ≠ []) :
    l.headI ∈ l := by
  cases l with
  | nil => exact absurd rfl h
  | cons a t => exact List.mem_cons_self a t

/-- C1: For every valid density index `i` the generated vertex list has
exactly `stepsX[i] * stepsY[i] * 6` vertices and the returned point count
equals that value; in particular density index 0 (the 2×2 grid) produces
exactly 24 vertices. -/
theorem C1_vertex_count :
    (∀ i : Fin 6,
      (generate_vertices i).1.length = SAMPLE_STEPS_X i * SAMPLE_STEPS_Y i * 6 ∧
      (generate_vertices i).2 = SAMPLE_STEPS_X i * SAMPLE_STEPS_Y i * 6) ∧
    (generate_vertices 0).1.length = 24 ∧ (generate_vertices 0).2 = 24 := by
  refine ⟨fun i => ⟨generate_vertices_length i, generate_vertices_count i⟩, ?_, ?_⟩
  · rw [generate_vertices_length 0, show SAMPLE_STEPS_X 0 = 2 from rfl,
      show SAMPLE_STEPS_Y 0 = 2 from rfl]
  · rw [generate_vertices_count 0, show SAMPLE_STEPS_X 0 = 2 from rfl,
      show SAMPLE_STEPS_Y 0 = 2 from rfl]

/-- C10: Starting from `SAMPLE_START_IDX`, any sequence of
increase/decrease commands keeps the sample index a valid index (`≤ 5`) of
the 6-entry tessellation tables, and `decrease_samples` at index 0 leaves
the index unchanged (no unsigned underflow). -/
theorem C10_samples_idx_invariant :
    (∀ ops : List SampleOp, ops.foldl applySampleOp SAMPLE_START_IDX ≤ 5) ∧
    decrease_samples 0 = 0 := by
  constructor
  · have inv : ∀ (ops : List SampleOp) (s : ℕ), s ≤ 5 →
        ops.foldl applySampleOp s ≤ 5 := by
      intro ops
      induction ops with
      | nil => intro s hs; exact hs
      | cons op rest ih =>
        intro s hs
        refine ih _ ?_
        cases op with
        | inc =>
          simp only [applySampleOp, increase_samples, natClamp]
          omega
        | dec =>
          simp only [applySampleOp, decrease_samples, natClamp]
          split
          · omega
          · omega
    intro ops
    exact inv ops SAMPLE_START_IDX (by norm_num [SAMPLE_START_IDX])
  · rfl

/-! ## Per-vertex properties of the generated mesh -/

/-- A fraction `k/n` lies in the unit interval when `k ≤ n`. -/
theorem nat_div_unit (k n : ℕ) (h0 : 0 < n) (hk : k ≤ n) :
    0 ≤ (k : ℚ) / (n : ℚ) ∧ (k : ℚ) / (n : ℚ) ≤ 1 := by
  have hn : (0 : ℚ) < (n : ℚ) := by exact_mod_cast h0
  refine ⟨by positivity, ?_⟩
  rw [div_le_one hn]
  exact_mod_cast hk

/-- Every vertex a cell emits has the flat normal `(0,0,1)` and a tangent
orthogonal to it (all positions have `z = 0`, so every tangent has a zero
`z`-component). -/
theorem cellVertices_tangent_normal (dx dy : ℚ) (x y : ℕ) (v : Vertex)
    (hv : v ∈ cellVertices dx dy x y) :
    v.normal = ⟨0, 0, 1⟩ ∧ v.tangent.dot v.normal = 0 := by
  simp only [cellVertices, List.mem_cons, List.not_mem_nil, or_false] at hv
  rcases hv with h | h | h | h | h | h <;> subst h <;>
    exact ⟨rfl, by simp [Vec3.dot, Vec3.sub, Vec2.sub]⟩

/-- C5: Every vertex emitted by the mesh generator, at every valid
density index, carries the normal `(0,0,1)` and a tangent orthogonal to it:
`tangent ⬝ normal = 0` (the tangent lies in the plane `z = 0`). -/
theorem C5_tangent_orthogonal_normal (i : Fin 6) (v : Vertex)
    (hv : v ∈ (generate_vertices i).1) :
    v.normal = ⟨0, 0, 1⟩ ∧ v.tangent.dot v.normal = 0 := by
  obtain ⟨x, _, y, _, hmem⟩ := mem_generate_vertices hv
  exact cellVertices_tangent_normal _ _ x y v hmem

/-- Concrete instance of C5 at density index 0, first emitted vertex. -/
theorem C5_tangent_orthogonal_normal_witness :
    ((generate_vertices 0).1.headI ∈ (generate_vertices 0).1) ∧
    ((generate_vertices 0).1.headI.normal = ⟨0, 0, 1⟩ ∧
      (generate_vertices 0).1.headI.tangent.dot (generate_vertices 0).1.headI.normal = 0) :=
  ⟨headI_mem_of_ne_nil generate_vertices_zero_ne_nil,
   C5_tangent_orthogonal_normal 0 _ (headI_mem_of_ne_nil generate_vertices_zero_ne_nil)⟩

/-- UV bounds for every vertex a cell emits, given in-range cell indices and
the step sizes the generator actually passes. -/
theorem cellVertices_uv_bounds (Sx Sy x y : ℕ) (hx : x < Sx) (hy : y < Sy)
    (v : Vertex)
    (hv : v ∈ cellVertices ((MAX_X - MIN_X) / (Sx : ℚ)) ((MAX_Y - MIN_Y) / (Sy : ℚ)) x y) :
    0 ≤ v.uv.x ∧ v.uv.x ≤ 1 ∧ 0 ≤ v.uv.y ∧ v.uv.y ≤ 1 := by
  have hSx : 0 < Sx := Nat.lt_of_le_of_lt (Nat.zero_le x) hx
  have hSy : 0 < Sy := Nat.lt_of_le_of_lt (Nat.zero_le y) hy
  have hSxQ : (Sx : ℚ) ≠ 0 := by exact_mod_cast hSx.ne'
  have hSyQ : (Sy : ℚ) ≠ 0 := by exact_mod_cast hSy.ne'
  have ex1 : (MIN_X + (x : ℚ) * ((MAX_X - MIN_X) / (Sx : ℚ)) - MIN_X) / (MAX_X - MIN_X)
      = (x : ℚ) / (Sx : ℚ) := by
    simp only [MIN_X, MAX_X]
    field_simp
    ring
  have ex2 : (MIN_X + (x : ℚ) * ((MAX_X - MIN_X) / (Sx : ℚ)) + (MAX_X - MIN_X) / (Sx : ℚ) - MIN_X)
        / (MAX_X - MIN_X)
      = ((x + 1 : ℕ) : ℚ) / (Sx : ℚ) := by
    simp only [MIN_X, MAX_X]
    push_cast
    field_simp
    ring
  have ey1 : (MIN_Y + (y : ℚ) * ((MAX_Y - MIN_Y) / (Sy : ℚ)) - MIN_Y) / (MAX_Y - MIN_Y)
      = (y : ℚ) / (Sy : ℚ) := by
    simp only [MIN_Y, MAX_Y]
    field_simp
    ring
  have ey2 : (MIN_Y + (y : ℚ) * ((MAX_Y - MIN_Y) / (Sy : ℚ)) + (MAX_Y - MIN_Y) / (Sy : ℚ) - MIN_Y)
        / (MAX_Y - MIN_Y)
      = ((y + 1 : ℕ) : ℚ) / (Sy : ℚ) := by
    simp only [MIN_Y, MAX_Y]
    push_cast
    field_simp
    ring
  have Hx1 := nat_div_unit x Sx hSx hx.le
  have Hx2 := nat_div_unit (x + 1) Sx hSx hx
  have Hy1 := nat_div_unit y Sy hSy hy.le
  have Hy2 := nat_div_unit (y + 1) Sy hSy hy
  rw [← ex1] at Hx1
  rw [← ex2] at Hx2
  rw [← ey1] at Hy1
  rw [← ey2] at Hy2
  simp only [cellVertices, List.mem_cons, List.not_mem_nil, or_false] at hv
  rcases hv with h | h | h | h | h | h <;> subst h
  · exact ⟨Hx1.1, Hx1.2, Hy1.1, Hy1.2⟩
  · exact ⟨Hx1.1, Hx1.2, Hy2.1, Hy2.2⟩
  · exact ⟨Hx2.1, Hx2.2, Hy2.1, Hy2.2⟩
  · exact ⟨Hx1.1, Hx1.2, Hy1.1, Hy1.2⟩
  · exact ⟨Hx2.1, Hx2.2, Hy2.1, Hy2.2⟩
  · exact ⟨Hx2.1, Hx2.2, Hy1.1, Hy1.2⟩

/-- C7: Every vertex emitted by the mesh generator, at every valid
density index, has a UV coordinate in the unit square `[0,1] × [0,1]`. -/
theorem C7_uv_in_unit_square (i : Fin 6) (v : Vertex)
    (hv : v ∈ (generate_vertices i).1) :
    0 ≤ v.uv.x ∧ v.uv.x ≤ 1 ∧ 0 ≤ v.uv.y ∧ v.uv.y ≤ 1 := by
  obtain ⟨x, hx, y, hy, hmem⟩ := mem_generate_vertices hv
  exact cellVertices_uv_bounds _ _ x y hx hy v hmem

/-- Concrete instance of C7 at density index 0, first emitted vertex. -/
theorem C7_uv_in_unit_square_witness :
    ((generate_vertices 0).1.headI ∈ (generate_vertices 0).1) ∧
    (0 ≤ (generate_vertices 0).1.headI.uv.x ∧ (generate_vertices 0).1.headI.uv.x ≤ 1 ∧
      0 ≤ (generate_vertices 0).1.headI.uv.y ∧ (generate_vertices 0).1.headI.uv.y ≤ 1) :=
  ⟨headI_mem_of_ne_nil generate_vertices_zero_ne_nil,
   C7_uv_in_unit_square 0 _ (headI_mem_of_ne_nil generate_vertices_zero_ne_nil)⟩

/-! ## Real-vector lemmas used by the camera proofs -/

/-- The dot product is symmetric. -/
theorem Vec3.dot_comm (a b : Vec3 ℝ) : a.dot b = b.dot a := by
  simp only [Vec3.dot]
  ring

/-- A square norm is nonnegative. -/
theorem Vec3.dot_self_nonneg (v : Vec3 ℝ) : 0 ≤ v.dot v := by
  obtain ⟨x, y, z⟩ := v
  simp only [Vec3.dot]
  nlinarith [mul_self_nonneg x, mul_self_nonneg y, mul_self_nonneg z]

/-- Scaling factors out of the dot product. -/
theorem Vec3.dot_smul_left (v w : Vec3 ℝ) (c : ℝ) :
    (v.smul c).dot w = c * v.dot w := by
  obtain ⟨x, y, z⟩ := v
  obtain ⟨a, b, d⟩ := w
  simp only [Vec3.dot, Vec3.smul]
  ring

/-- The cross product is orthogonal to its first operand. -/
theorem Vec3.dot_cross_left (a b : Vec3 ℝ) : (a.cross b).dot a = 0 := by
  obtain ⟨x, y, z⟩ := a
  obtain ⟨u, v, w⟩ := b
  simp only [Vec3.dot, Vec3.cross]
  ring

/-- The cross product is orthogonal to its second operand. -/
theorem Vec3.dot_cross_right (a b : Vec3 ℝ) : (a.cross b).dot b = 0 := by
  obtain ⟨x, y, z⟩ := a
  obtain ⟨u, v, w⟩ := b
  simp only [Vec3.dot, Vec3.cross]
  ring

/-- Lagrange: the square norm of a cross product. -/
theorem Vec3.dot_cross_self (a b : Vec3 ℝ) :
    (a.cross b).dot (a.cross b) = a.dot a * b.dot b - (a.dot b) ^ 2 := by
  obtain ⟨x, y, z⟩ := a
  obtain ⟨u, v, w⟩ := b
  simp only [Vec3.dot, Vec3.cross]
  ring

/-- Normalizing a vector that already has unit square norm is the identity. -/
theorem Vec3.normalize_of_dot_one {v : Vec3 ℝ} (h : v.dot v = 1) :
    v.normalize = v := by
  obtain ⟨x, y, z⟩ := v
  simp only [Vec3.normalize, Vec3.smul, h, Real.sqrt_one]
  norm_num

/-- A normalized nonzero vector has unit square norm. -/
theorem Vec3.dot_normalize_self {v : Vec3 ℝ} (h : 0 < v.dot v) :
    v.normalize.dot v.normalize = 1 := by
  have hsq : Real.sqrt (v.dot v) ^ 2 = v.dot v := Real.sq_sqrt h.le
  have hs : Real.sqrt (v.dot v) ≠ 0 := (Real.sqrt_pos.mpr h).ne'
  obtain ⟨x, y, z⟩ := v
  simp only [Vec3.normalize, Vec3.smul, Vec3.dot] at *
  field_simp

/-! ## Camera (`src/glhelper/camera.rs`) -/

namespace glhelper

/-- Rust `f32::to_radians`: degrees to radians. -/
noncomputable def toRadians (deg : ℝ) : ℝ :=
  deg * (Real.pi / 180)

/-- Rust's `f32::clamp(lo, hi)` for `lo ≤ hi`. -/
noncomputable def fclamp (x lo hi : ℝ) : ℝ :=
  min (max x lo) hi

/-- The `Camera` struct of `glhelper/camera.rs`. -/
structure Camera where
  pos : Vec3 ℝ
  front : Vec3 ℝ
  up : Vec3 ℝ
  right : Vec3 ℝ
  world_up : Vec3 ℝ
  yaw : ℝ
  pitch : ℝ
  zoom : ℝ
  movement_speed : ℝ
  mouse_sens : ℝ

/-- The `MovementDirection` enum. -/
inductive MovementDirection where
  | FORWARD
  | BACKWARD
  | LEFT
  | RIGHT
  | UP
  | DOWN
deriving DecidableEq

/-- Embeds `Camera::recalculate_direction_vectors`: rebuild `front`/`right`/`up`
from the stored `yaw`/`pitch` (degrees). -/
noncomputable def recalculate_direction_vectors (c : Camera) : Camera :=
  let front := (Vec3.mk
    (Real.cos (toRadians c.yaw) * Real.cos (toRadians c.pitch))
    (Real.sin (toRadians c.pitch))
    (Real.sin (toRadians c.yaw) * Real.cos (toRadians c.pitch))).normalize
  let right := (front.cross c.world_up).normalize
  let up := (right.cross front).normalize
  { c with front := front, right := right, up := up }

/-- Embeds `Camera::reset_position`. -/
noncomputable def reset_position (c : Camera) : Camera :=
  recalculate_direction_vectors
    { c with pos := ⟨0, 0, -1⟩, yaw := 90, pitch := 0, zoom := 45 }

/-- Embeds `Camera::new`: the default field values of the constructor, then
`reset_position`. -/
noncomputable def Camera.new : Camera :=
  reset_position
    { pos := ⟨0, 0, 0⟩, front := ⟨0, 0, 0⟩, up := ⟨0, 0, 0⟩, right := ⟨0, 0, 0⟩,
      world_up := ⟨0, 1, 0⟩, yaw := 0, pitch := 0,
      movement_speed := 0.5, mouse_sens := 0.1, zoom := 0 }

/-- Embeds `Camera::move_camera`. -/
noncomputable def move_camera (c : Camera) (dir : MovementDirection) (amount : ℝ) : Camera :=
  let v := c.movement_speed * amount
  match dir with
  | MovementDirection.FORWARD => { c with pos := c.pos.add (c.front.smul v) }
  | MovementDirection.BACKWARD => { c with pos := c.pos.sub (c.front.smul v) }
  | MovementDirection.LEFT => { c with pos := c.pos.sub (c.right.smul v) }
  | MovementDirection.RIGHT => { c with pos := c.pos.add (c.right.smul v) }
  | MovementDirection.UP => { c with pos := c.pos.add (c.up.smul v) }
  | MovementDirection.DOWN => { c with pos := c.pos.sub (c.up.smul v) }

/-- Embeds `Camera::rotate_camera`: yaw grows freely, pitch is clamped to
`[-89.9, 89.9]`, then the basis is recomputed. -/
noncomputable def rotate_camera (c : Camera) (horiz_amount vert_amount : ℝ) : Camera :=
  recalculate_direction_vectors
    { c with
      yaw := c.yaw + horiz_amount * c.mouse_sens,
      pitch := fclamp (c.pitch + vert_amount * c.mouse_sens) (-89.9) 89.9 }

/-- Embeds `Camera::zoom_camera`. -/
noncomputable def zoom_camera (c : Camera) (delta : ℝ) : Camera :=
  { c with zoom := fclamp (c.zoom - delta) 10 60 }

end glhelper

/-- Recomputing the basis does not change the pitch. -/
theorem recalc_pitch (c : glhelper.Camera) :
    (glhelper.recalculate_direction_vectors c).pitch = c.pitch := rfl

/-- C2: Starting from the freshly constructed camera, any sequence of
`rotate_camera` calls (arbitrary horizontal/vertical deltas of any
magnitude) keeps the pitch within the clamp bounds `-89.9 ≤ pitch ≤ 89.9`. -/
theorem C2_pitch_clamped (events : List (ℝ × ℝ)) :
    -89.9 ≤ (events.foldl (fun c e => glhelper.rotate_camera c e.1 e.2)
        glhelper.Camera.new).pitch ∧
      (events.foldl (fun c e => glhelper.rotate_camera c e.1 e.2)
        glhelper.Camera.new).pitch ≤ 89.9 := by
  have hstep : ∀ (c : glhelper.Camera) (h v : ℝ),
      -89.9 ≤ (glhelper.rotate_camera c h v).pitch ∧
        (glhelper.rotate_camera c h v).pitch ≤ 89.9 := by
    intro c h v
    unfold glhelper.rotate_camera
    rw [recalc_pitch]
    exact ⟨le_min (le_max_right _ _) (by norm_num), min_le_right _ _⟩
  have hinv : ∀ (evs : List (ℝ × ℝ)) (c : glhelper.Camera),
      -89.9 ≤ c.pitch → c.pitch ≤ 89.9 →
        -89.9 ≤ (evs.foldl (fun c e => glhelper.rotate_camera c e.1 e.2) c).pitch ∧
          (evs.foldl (fun c e => glhelper.rotate_camera c e.1 e.2) c).pitch ≤ 89.9 := by
    intro evs
    induction evs with
    | nil => intro c hlo hhi; exact ⟨hlo, hhi⟩
    | cons e rest ih =>
      intro c _ _
      exact ih _ (hstep c e.1 e.2).1 (hstep c e.1 e.2).2
  have hnew : glhelper.Camera.new.pitch = 0 := rfl
  exact hinv events glhelper.Camera.new (by rw [hnew]; norm_num) (by rw [hnew]; norm_num)

/-- C4: For every camera whose pitch lies in the clamped range (and with
the world-up constant `(0,1,0)`), recomputing the direction vectors yields
`front = normalize (cos yaw * cos pitch, sin pitch, sin yaw * cos pitch)`
(angles converted from degrees to radians),
`right = normalize (front × world_up)`, `up = normalize (right × front)`,
and these three vectors are pairwise orthogonal unit vectors forming a
right-handed basis (`right × front = up`). -/
theorem C4_basis_orthonormal (c : glhelper.Camera)
    (hwu : c.world_up = ⟨0, 1, 0⟩)
    (hlo : -89.9 ≤ c.pitch) (hhi : c.pitch ≤ 89.9) :
    let c2 := glhelper.recalculate_direction_vectors c
    c2.front = (Vec3.mk
        (Real.cos (glhelper.toRadians c.yaw) * Real.cos (glhelper.toRadians c.pitch))
        (Real.sin (glhelper.toRadians c.pitch))
        (Real.sin (glhelper.toRadians c.yaw) * Real.cos (glhelper.toRadians c.pitch))).normalize ∧
      c2.right = (c2.front.cross c.world_up).normalize ∧
      c2.up = (c2.right.cross c2.front).normalize ∧
      c2.front.dot c2.front = 1 ∧
      c2.right.dot c2.right = 1 ∧
      c2.up.dot c2.up = 1 ∧
      c2.front.dot c2.right = 0 ∧
      c2.front.dot c2.up = 0 ∧
      c2.right.dot c2.up = 0 ∧
      c2.right.cross c2.front = c2.up := by
  intro c2
  have hpi := Real.pi_pos
  have hplo : -(Real.pi / 2) < glhelper.toRadians c.pitch := by
    unfold glhelper.toRadians
    nlinarith [mul_nonneg (by linarith : (0 : ℝ) ≤ c.pitch + 89.9) hpi.le]
  have hphi : glhelper.toRadians c.pitch < Real.pi / 2 := by
    unfold glhelper.toRadians
    nlinarith [mul_nonneg (by linarith : (0 : ℝ) ≤ 89.9 - c.pitch) hpi.le]
  have hcos : 0 < Real.cos (glhelper.toRadians c.pitch) :=
    Real.cos_pos_of_mem_Ioo ⟨hplo, hphi⟩
  set y := glhelper.toRadians c.yaw with hy
  set p := glhelper.toRadians c.pitch with hp
  have hfr1 : (Vec3.mk (Real.cos y * Real.cos p) (Real.sin p)
        (Real.sin y * Real.cos p)).dot
      (Vec3.mk (Real.cos y * Real.cos p) (Real.sin p) (Real.sin y * Real.cos p)) = 1 := by
    simp only [Vec3.dot]
    linear_combination (Real.cos p) ^ 2 * Real.sin_sq_add_cos_sq y +
      Real.sin_sq_add_cos_sq p
  have hfront_def : c2.front = (Vec3.mk (Real.cos y * Real.cos p) (Real.sin p)
      (Real.sin y * Real.cos p)).normalize := rfl
  have hfront : c2.front = Vec3.mk (Real.cos y * Real.cos p) (Real.sin p)
      (Real.sin y * Real.cos p) := by
    rw [hfront_def, Vec3.normalize_of_dot_one hfr1]
  have hright_def : c2.right = (c2.front.cross c.world_up).normalize := rfl
  have hup_def : c2.up = (c2.right.cross c2.front).normalize := rfl
  have hrr : ((Vec3.mk (Real.cos y * Real.cos p) (Real.sin p)
          (Real.sin y * Real.cos p)).cross ⟨0, 1, 0⟩).dot
        ((Vec3.mk (Real.cos y * Real.cos p) (Real.sin p)
          (Real.sin y * Real.cos p)).cross ⟨0, 1, 0⟩)
      = Real.cos p ^ 2 := by
    simp only [Vec3.cross, Vec3.dot]
    linear_combination (Real.cos p) ^ 2 * Real.sin_sq_add_cos_sq y
  have hright : c2.right = ((Vec3.mk (Real.cos y * Real.cos p) (Real.sin p)
      (Real.sin y * Real.cos p)).cross ⟨0, 1, 0⟩).normalize := by
    rw [hright_def, hfront, hwu]
  have hrrpos : 0 < ((Vec3.mk (Real.cos y * Real.cos p) (Real.sin p)
          (Real.sin y * Real.cos p)).cross ⟨0, 1, 0⟩).dot
        ((Vec3.mk (Real.cos y * Real.cos p) (Real.sin p)
          (Real.sin y * Real.cos p)).cross ⟨0, 1, 0⟩) := by
    rw [hrr]
    exact pow_pos hcos 2
  have hrunit : c2.right.dot c2.right = 1 := by
    rw [hright]
    exact Vec3.dot_normalize_self hrrpos
  have hfunit : c2.front.dot c2.front = 1 := by
    rw [hfront]
    exact hfr1
  have hrf : c2.right.dot c2.front = 0 := by
    rw [hright, hfront]
    unfold Vec3.normalize
    rw [Vec3.dot_smul_left, Vec3.dot_cross_left]
    ring
  have hfr_right : c2.front.dot c2.right = 0 := by
    rw [Vec3.dot_comm]
    exact hrf
  have huu1 : (c2.right.cross c2.front).dot (c2.right.cross c2.front) = 1 := by
    rw [Vec3.dot_cross_self, hrunit, hfunit, hrf]
    ring
  have hup : c2.up = c2.right.cross c2.front := by
    rw [hup_def, Vec3.normalize_of_dot_one huu1]
  refine ⟨hfront_def, hright_def, hup_def, hfunit, hrunit, ?_, hfr_right, ?_, ?_, hup.symm⟩
  · rw [hup]
    exact huu1
  · rw [hup, Vec3.dot_comm]
    exact Vec3.dot_cross_right _ _
  · rw [hup, Vec3.dot_comm]
    exact Vec3.dot_cross_left _ _

/-- Concrete instance of C4 at the freshly constructed camera
(yaw 90°, pitch 0°). -/
theorem C4_basis_orthonormal_witness :
    glhelper.Camera.new.world_up = ⟨0, 1, 0⟩ ∧
    -89.9 ≤ glhelper.Camera.new.pitch ∧
    glhelper.Camera.new.pitch ≤ 89.9 ∧
    (let c2 := glhelper.recalculate_direction_vectors glhelper.Camera.new
     c2.front = (Vec3.mk
        (Real.cos (glhelper.toRadians glhelper.Camera.new.yaw) *
          Real.cos (glhelper.toRadians glhelper.Camera.new.pitch))
        (Real.sin (glhelper.toRadians glhelper.Camera.new.pitch))
        (Real.sin (glhelper.toRadians glhelper.Camera.new.yaw) *
          Real.cos (glhelper.toRadians glhelper.Camera.new.pitch))).normalize ∧
      c2.right = (c2.front.cross glhelper.Camera.new.world_up).normalize ∧
      c2.up = (c2.right.cross c2.front).normalize ∧
      c2.front.dot c2.front = 1 ∧
      c2.right.dot c2.right = 1 ∧
      c2.up.dot c2.up = 1 ∧
      c2.front.dot c2.right = 0 ∧
      c2.front.dot c2.up = 0 ∧
      c2.right.dot c2.up = 0 ∧
      c2.right.cross c2.front = c2.up) :=
  ⟨rfl,
   by rw [show glhelper.Camera.new.pitch = 0 from rfl]; norm_num,
   by rw [show glhelper.Camera.new.pitch = 0 from rfl]; norm_num,
   C4_basis_orthonormal glhelper.Camera.new rfl
     (by rw [show glhelper.Camera.new.pitch = 0 from rfl]; norm_num)
     (by rw [show glhelper.Camera.new.pitch = 0 from rfl]; norm_num)⟩

/-- C6: From the reset pose (position `(0,0,-1)`, yaw 90°, pitch 0°,
movement speed 0.5) the front vector is exactly `(0,0,1)`, and
`move_camera FORWARD 1.0` moves the position by exactly 0.5 units along it,
to `(0,0,-0.5)`. -/
theorem C6_move_forward_from_reset :
    glhelper.Camera.new.pos = ⟨0, 0, -1⟩ ∧
    glhelper.Camera.new.front = ⟨0, 0, 1⟩ ∧
    (glhelper.move_camera glhelper.Camera.new glhelper.MovementDirection.FORWARD 1).pos
      = ⟨0, 0, -(1 / 2)⟩ := by
  have h90 : glhelper.toRadians 90 = Real.pi / 2 := by
    unfold glhelper.toRadians
    ring
  have h0 : glhelper.toRadians 0 = 0 := by
    unfold glhelper.toRadians
    ring
  have hfrontraw : glhelper.Camera.new.front =
      (Vec3.mk
        (Real.cos (glhelper.toRadians 90) * Real.cos (glhelper.toRadians 0))
        (Real.sin (glhelper.toRadians 0))
        (Real.sin (glhelper.toRadians 90) * Real.cos (glhelper.toRadians 0))).normalize := rfl
  have hfront : glhelper.Camera.new.front = ⟨0, 0, 1⟩ := by
    rw [hfrontraw, h90, h0, Real.cos_pi_div_two, Real.sin_pi_div_two,
      Real.cos_zero, Real.sin_zero]
    have e : Vec3.mk (0 * 1 : ℝ) (0 : ℝ) (1 * 1 : ℝ) = (⟨0, 0, 1⟩ : Vec3 ℝ) := by
      norm_num
    rw [e]
    exact Vec3.normalize_of_dot_one (by norm_num [Vec3.dot])
  refine ⟨rfl, hfront, ?_⟩
  simp only [glhelper.move_camera]
  rw [show glhelper.Camera.new.pos = (⟨0, 0, -1⟩ : Vec3 ℝ) from rfl,
    show glhelper.Camera.new.movement_speed = (0.5 : ℝ) from rfl, hfront]
  simp only [Vec3.add, Vec3.smul]
  norm_num

/-! ## Look-at and projection matrix builders

`src/camera.rs` (the legacy module, kept in the tree but not referenced by
`main.rs`) and `src/glhelper/utils.rs` both define `calc_look_at_matrix`;
each is embedded verbatim in its own namespace. -/

namespace camera

/-- Embeds `calc_look_at_matrix` of the legacy `src/camera.rs` module. -/
noncomputable def calc_look_at_matrix (eye_pos target up : Vec3 ℝ) : Mat4 ℝ :=
  let f := (target.sub eye_pos).normalize
  let u0 := up.normalize
  let s := (f.cross u0).normalize
  let u := s.cross f
  { (1 : Mat4 ℝ) with
    xx := s.x, yx := s.y, zx := s.z,
    xy := u.x, yy := u.y, zy := u.z,
    xz := -1 * f.x, yz := -1 * f.y, zz := -1 * f.z,
    wx := -1 * (s.dot eye_pos), wy := -1 * (u.dot eye_pos), wz := f.dot eye_pos }

end camera

namespace glhelper

/-- Embeds `calc_look_at_matrix` of `src/glhelper/utils.rs`. -/
noncomputable def calc_look_at_matrix (eye_pos target up : Vec3 ℝ) : Mat4 ℝ :=
  let f := (target.sub eye_pos).normalize
  let u0 := up.normalize
  let s := (f.cross u0).normalize
  let u := s.cross f
  { (1 : Mat4 ℝ) with
    xx := s.x, yx := s.y, zx := s.z,
    xy := u.x, yy := u.y, zy := u.z,
    xz := -1 * f.x, yz := -1 * f.y, zz := -1 * f.z,
    wx := -1 * (s.dot eye_pos), wy := -1 * (u.dot eye_pos), wz := f.dot eye_pos }

/-- Embeds `calc_projection_matrix` of `src/glhelper/utils.rs`.  The tangent of the
half field-of-view (`(fovy / 2.0).tan()` in the source) is taken as an
explicit function parameter, since the claims hold for every value of it. -/
def calc_projection_matrix (tan : ℚ → ℚ) (fovy aspect z_near z_far : ℚ) :
    Except String (Mat4 ℚ) :=
  if aspect = 0 then Except.error "Aspect ratio may not be 0"
  else if z_far = z_near then Except.error "z-values may not be the same"
  else
    let tan_half_fovy := tan (fovy / 2)
    Except.ok
      { (0 : Mat4 ℚ) with
        xx := 1 / (aspect * tan_half_fovy),
        yy := 1 / tan_half_fovy,
        zz := -1 * (z_far + z_near) / (z_far - z_near),
        zw := -1,
        wz := (-2 * z_far * z_near) / (z_far - z_near) }

end glhelper

/-- C9: The legacy look-at implementation and the `glhelper` one are
extensionally equal: both build the same matrix for every eye/target/up. -/
theorem C9_look_at_variants_equal (eye_pos target up : Vec3 ℝ) :
    camera.calc_look_at_matrix eye_pos target up
      = glhelper.calc_look_at_matrix eye_pos target up := rfl

/-- C3: The projection builder fails exactly when `aspect = 0` or
`near = far`; for every other input it returns a matrix (and for every
tangent function, i.e. every field of view). -/
theorem C3_projection_error_iff (tan : ℚ → ℚ) (fovy aspect z_near z_far : ℚ) :
    (∃ msg, glhelper.calc_projection_matrix tan fovy aspect z_near z_far
        = Except.error msg)
      ↔ (aspect = 0 ∨ z_near = z_far) := by
  unfold glhelper.calc_projection_matrix
  split_ifs with h1 h2
  · simp [h1]
  · simp [h2.symm]
  · constructor
    · rintro ⟨msg, hmsg⟩
      exact absurd hmsg (by simp)
    · rintro (h | h)
      · exact absurd h h1
      · exact absurd h.symm h2

/-- C8 refuted as stated: `aspect = 1 ≠ 0` and `near = -1 ≠ 1/2 = far`
is a "valid input" in the claim's sense, yet the `zz` entry of the returned
matrix is `1/3 > 0`, not negative. -/
theorem C8_counterexample :
    (1 : ℚ) ≠ 0 ∧ (-1 : ℚ) ≠ (1 / 2 : ℚ) ∧
    (glhelper.calc_projection_matrix (fun q => q) 1 1 (-1) (1 / 2)).map Mat4.zz
      = Except.ok (1 / 3) ∧ (0 : ℚ) < 1 / 3 := by
  refine ⟨by norm_num, by norm_num, ?_, by norm_num⟩
  unfold glhelper.calc_projection_matrix
  rw [if_neg (by norm_num : ¬(1 : ℚ) = 0),
    if_neg (by norm_num : ¬(1 / 2 : ℚ) = -1)]
  simp only [Except.map]
  norm_num

/-- C8 amended: For every input with `aspect ≠ 0` and
`0 < z_near < z_far` (the standard perspective setting; the demo uses
near 0.1, far 100), the projection builder succeeds and the `zz` entry of
the returned matrix is negative. -/
theorem C8_amended_zz_negative (tan : ℚ → ℚ) (fovy aspect z_near z_far : ℚ)
    (ha : aspect ≠ 0) (h0 : 0 < z_near) (hnf : z_near < z_far) :
    ∃ M, glhelper.calc_projection_matrix tan fovy aspect z_near z_far
        = Except.ok M ∧ M.zz < 0 := by
  unfold glhelper.calc_projection_matrix
  rw [if_neg ha, if_neg hnf.ne']
  refine ⟨_, rfl, ?_⟩
  show -1 * (z_far + z_near) / (z_far - z_near) < 0
  have hd : 0 < z_far - z_near := by linarith
  have hn : 0 < z_far + z_near := by linarith
  rw [neg_one_mul, neg_div]
  exact neg_lt_zero.mpr (div_pos hn hd)

/-- Concrete instance of the amended C8 at `aspect 1`, `near 1`, `far 2`. -/
theorem C8_amended_zz_negative_witness :
    (1 : ℚ) ≠ 0 ∧ (0 : ℚ) < 1 ∧ (1 : ℚ) < 2 ∧
    (∃ M, glhelper.calc_projection_matrix (fun q => q) 1 1 1 2
        = Except.ok M ∧ M.zz < 0) :=
  ⟨by norm_num, by norm_num, by norm_num,
   C8_amended_zz_negative (fun q => q) 1 1 1 2 (by norm_num) (by norm_num)
     (by norm_num)⟩
